import Mathlib

set_option maxHeartbeats 1000000

/-!
Shallow embedding of the vtctl Zookeeper action-log management plugin
(`go/cmd/vtctl/plugin_zktopo.go`).

The plugin's own code (command wrappers, `getActions`, `staleActions`,
`listActionsByShard`, `zkResolveWildcards`) is translated directly from the
source.  The collaborators it calls that are not part of the source under
analysis — the `tm` action-node codec and predicates, and the
`zktopo.ZkTopologyServer` store-level operations `PurgeActions`,
`StaleActions`, `PruneActionLogs`, plus the raw Zookeeper connection — are
modelled from the specification, as indicated by their doc comments.

Concurrency is embedded sequentially: the per-path goroutines of the Go code
are run as a left-to-right fold over the path list, threading the store state.
The shared `errCount` (`sync2.AtomicInt32`) and printed output are returned
explicitly.  Calls to `relog.*` are not modelled as state; where a claim
mentions logging, note that every model branch that drops a node or fails a
path corresponds one-to-one to a `relog` call in the source.
-/

/-- Modelled from the spec: the persisted action-record states
`{pending, completed, failed, stale-candidate}` (spec section 6). -/
inductive ActionState
  | pending
  | completed
  | failed
  | staleCandidate
deriving DecidableEq

/-- Modelled from the spec: a "finished" (terminal) action state — one that is
safe to garbage-collect (spec sections 3 and 4.2). -/
def ActionState.isTerminal : ActionState → Bool
  | .completed => true
  | .failed => true
  | _ => false

/-- The raw payload of a coordination-store node: empty (missing data),
malformed (fails to decode), or a well-formed record. -/
inductive RawData
  | empty
  | malformed
  | valid (kind : String) (st : ActionState) (target : String)
deriving DecidableEq

/-- Modelled from the spec: the decoded `tm.ActionNode` record
`{kind, state, target}` plus the path it was decoded at (spec section 3). -/
structure ActionNode where
  kind : String
  state : ActionState
  target : String
  path : String
deriving DecidableEq

/-- Modelled from the spec: `tm.ActionNodeFromJson(data, path)` — decodes a raw
payload into an `ActionNode`, failing with a decode error on a malformed or
empty payload (spec section 4.2). -/
def ActionNodeFromJson : RawData → String → Except String ActionNode
  | .valid k s t, p => .ok ⟨k, s, t, p⟩
  | .empty, _ => .error "unexpected end of JSON input"
  | .malformed, _ => .error "malformed action node"

/-- Modelled from the spec: `tm.ActionNodeCanBePurged` — the pure purge
predicate: a node is purgeable iff its decoded state is terminal
(spec section 4.2); an undecodable payload is not purgeable. -/
def ActionNodeCanBePurged : RawData → Bool
  | .valid _ s _ => s.isTerminal
  | _ => false

/-- Modelled from the spec: `tm.ActionNodeIsStale` — the pure stale predicate:
true iff the age since the store-supplied modification time exceeds
`maxStaleness` and the decoded state is non-terminal (spec sections 4.2
and 8); a payload that fails to decode is excluded (spec section 7:
DecodeError — node excluded from results, batch continues). -/
def ActionNodeIsStale (d : RawData) (age maxStaleness : Nat) : Bool :=
  decide (maxStaleness < age) &&
    (match d with
     | .valid _ s _ => !s.isTerminal
     | _ => false)

instance {ε α : Type} [DecidableEq ε] [DecidableEq α] : DecidableEq (Except ε α) :=
  fun x y =>
    match x, y with
    | .ok a, .ok b =>
        if h : a = b then isTrue (congrArg Except.ok h)
        else isFalse (fun hc => h (Except.ok.inj hc))
    | .error a, .error b =>
        if h : a = b then isTrue (congrArg Except.error h)
        else isFalse (fun hc => h (Except.error.inj hc))
    | .ok _, .error _ => isFalse (fun hc => Except.noConfusion hc)
    | .error _, .ok _ => isFalse (fun hc => Except.noConfusion hc)

/-- Strict lexicographic order on character lists, by code point (the byte
order Go's `sort.Strings` uses, restated executably). -/
def lexLt : List Char → List Char → Bool
  | [], [] => false
  | [], _ :: _ => true
  | _ :: _, [] => false
  | a :: as, b :: bs =>
      decide (a.toNat < b.toNat) || (decide (a.toNat = b.toNat) && lexLt as bs)

/-- Boolean lexicographic `≤` on strings (`a ≤ b` iff not `b < a`). -/
def strLe (a b : String) : Bool :=
  !(lexLt b.data a.data)

/-- The sorting relation used to embed `sort.Strings`. -/
def strLeP (a b : String) : Prop :=
  strLe a b = true

instance : DecidableRel strLeP :=
  fun a b => inferInstanceAs (Decidable (strLe a b = true))

theorem lexLt_asymm : ∀ as bs, lexLt as bs = true → lexLt bs as = false := by
  intro as
  induction as with
  | nil =>
    intro bs h
    cases bs with
    | nil => exact absurd h (by simp [lexLt])
    | cons b bs => simp [lexLt]
  | cons a as ih =>
    intro bs h
    cases bs with
    | nil => exact absurd h (by simp [lexLt])
    | cons b bs =>
      rw [Bool.eq_false_iff]
      intro h2
      simp only [lexLt, Bool.or_eq_true, Bool.and_eq_true, decide_eq_true_eq] at h h2
      rcases h with h | ⟨he, hl⟩
      · rcases h2 with h2 | ⟨h2e, _⟩ <;> omega
      · rcases h2 with h2 | ⟨h2e, h2l⟩
        · omega
        · have h3 := ih bs hl
          rw [h2l] at h3
          cases h3

theorem lexLt_negtrans :
    ∀ as bs cs, lexLt as cs = true → lexLt as bs = true ∨ lexLt bs cs = true := by
  intro as
  induction as with
  | nil =>
    intro bs cs h
    cases cs with
    | nil => exact absurd h (by simp [lexLt])
    | cons c cs =>
      cases bs with
      | nil => right; simp [lexLt]
      | cons b bs => left; simp [lexLt]
  | cons a as ih =>
    intro bs cs h
    cases cs with
    | nil => exact absurd h (by simp [lexLt])
    | cons c cs =>
      cases bs with
      | nil => right; simp [lexLt]
      | cons b bs =>
        simp only [lexLt, Bool.or_eq_true, Bool.and_eq_true, decide_eq_true_eq] at h ⊢
        rcases h with h | ⟨he, hl⟩
        · rcases Nat.lt_trichotomy a.toNat b.toNat with hb | hb | hb
          · left; left; exact hb
          · right; left; omega
          · right; left; omega
        · rcases Nat.lt_trichotomy a.toNat b.toNat with hb | hb | hb
          · left; left; exact hb
          · rcases ih bs cs hl with h2 | h2
            · left; right; exact ⟨hb, h2⟩
            · right; right; exact ⟨by omega, h2⟩
          · right; left; omega

theorem strLe_total : ∀ a b : String, strLe a b = true ∨ strLe b a = true := by
  intro a b
  cases h : lexLt b.data a.data
  · left; simp [strLe, h]
  · right; simp [strLe, lexLt_asymm _ _ h]

theorem strLe_trans :
    ∀ a b c : String, strLe a b = true → strLe b c = true → strLe a c = true := by
  intro a b c hab hbc
  simp only [strLe, Bool.not_eq_true'] at hab hbc ⊢
  cases hca : lexLt c.data a.data
  · rfl
  · rcases lexLt_negtrans c.data b.data a.data hca with h | h
    · rw [h] at hbc; cases hbc
    · rw [h] at hab; cases hab

instance : IsTotal String strLeP :=
  ⟨fun a b => strLe_total a b⟩

instance : IsTrans String strLeP :=
  ⟨fun a b c => strLe_trans a b c⟩

/-- One node of the coordination store: a child named `name` of the node at
path `parent`, carrying raw payload `data` and modification time `mtime`.
`ghost` marks a node that still appears in its parent's child listing but has
vanished by fetch time (the list/fetch race of spec section 3). -/
structure ZNode where
  parent : String
  name : String
  data : RawData
  mtime : Nat
  ghost : Bool
deriving DecidableEq

/-- The coordination-store state.  `failing` is the set of paths on which read
operations (list children, fetch, and hence any operation on the path) fail
with a store error; `failingDelete` is the set of paths on which the delete
phase fails (a store that lists fine but cannot delete). `now` is the current
time used for staleness. -/
structure ZkState where
  nodes : List ZNode
  failing : List String
  failingDelete : List String
  now : Nat
deriving DecidableEq

/-- The child nodes of path `p`. -/
def ZkState.children (st : ZkState) (p : String) : List ZNode :=
  st.nodes.filter (fun n => n.parent == p)

/-- The child names of path `p` (what `zconn.Children` lists). -/
def ZkState.childNames (st : ZkState) (p : String) : List String :=
  (st.children p).map (fun n => n.name)

/-- `path.Join(parent, name)` for the simple paths used here. -/
def pathJoin (p name : String) : String :=
  p ++ "/" ++ name

/-- Zookeeper client error kinds distinguished by the source: `ZNONODE`
(node does not exist) versus any other error. -/
inductive ZkErr
  | znonode
  | other
deriving DecidableEq

/-- `zconn.Children(p)`: list the child names, failing when the store is
unavailable at `p`.  Ghost (vanished) children are still listed — they
disappear only between listing and fetching. -/
def zconnChildren (st : ZkState) (p : String) : Except String (List String) :=
  if st.failing.contains p then .error "zk store unavailable"
  else .ok (st.childNames p)

/-- `zconn.Get(p)`: fetch a node's payload by full path.  Returns the payload
paired with an optional error; on error the payload is the zero value
(`RawData.empty`), as in Go.  A ghost node and a missing node report
`ZNONODE`. -/
def zconnGet (st : ZkState) (p : String) : RawData × Option ZkErr :=
  if st.failing.contains p then (.empty, some .other)
  else
    match st.nodes.find? (fun n => pathJoin n.parent n.name == p) with
    | none => (.empty, some .znonode)
    | some n => if n.ghost then (.empty, some .znonode) else (n.data, none)

/-- The children of `p` that pass the stale predicate (still present, old
enough, non-terminal).  Used by the store-level stale scan. -/
def staleChildren (st : ZkState) (p : String) (maxStaleness : Nat) : List ZNode :=
  (st.children p).filter
    (fun n => !n.ghost && ActionNodeIsStale n.data (st.now - n.mtime) maxStaleness)

/-- `storeDeleteFails st p`: the store fails a read-and-delete batch rooted at
`p` — either the read phase or the delete phase is unavailable there. -/
def storeDeleteFails (st : ZkState) (p : String) : Bool :=
  st.failing.contains p || st.failingDelete.contains p

/-- The nodes a purge of `p` keeps: everything except `p`'s purgeable
children. -/
def purgeKeep (p : String) (n : ZNode) : Bool :=
  !(n.parent == p && ActionNodeCanBePurged n.data)

/-- Modelled from the spec: `zktopo.ZkTopologyServer.PurgeActions(path, pred)`
(not under the analysed source) — delete every purgeable child node of `path`
(spec section 4.3); fails as a whole when the store is unavailable at `path`
for reading or deleting. -/
def ZkTS.PurgeActions (st : ZkState) (p : String) : Except String ZkState :=
  if storeDeleteFails st p then .error "purge failed"
  else .ok { st with nodes := st.nodes.filter (purgeKeep p) }

/-- Modelled from the spec: `zktopo.ZkTopologyServer.StaleActions(path, maxStaleness, pred)`
(not under the analysed source) — list the children of `path`, fetch and
decode each, filter by the stale predicate and return the surviving raw
payloads (spec section 4.3); a child that vanished or fails to decode is
excluded and the scan continues (spec section 7). -/
def ZkTS.StaleActions (st : ZkState) (p : String) (maxStaleness : Nat) :
    Except String (List RawData) :=
  if st.failing.contains p then .error "stale scan failed"
  else .ok ((staleChildren st p maxStaleness).map (fun n => n.data))

/-- The lexically sorted child names of `p` (`sort.Strings` over the listing;
the spec's ordering contract makes lexical order chronological). -/
def sortedChildNames (st : ZkState) (p : String) : List String :=
  List.insertionSort strLeP (st.childNames p)

/-- The child names pruning will delete: all but the lexically greatest
`keep` names. -/
def toDeleteNames (st : ZkState) (p : String) (keep : Nat) : List String :=
  (sortedChildNames st p).take ((sortedChildNames st p).length - keep)

/-- The nodes a prune of `p` keeps: everything except `p`'s children named in
`toDeleteNames`. -/
def pruneKeep (st : ZkState) (p : String) (keep : Nat) (n : ZNode) : Bool :=
  !(n.parent == p && (toDeleteNames st p keep).contains n.name)

/-- Modelled from the spec: `zktopo.ZkTopologyServer.PruneActionLogs(path, keepCount)`
(not under the analysed source) — list the children of `path`, order them,
delete all but the most recent `keepCount`, and return the number of deleted
entries (spec section 4.3); fails as a whole when the store is unavailable at
`path` for reading or deleting. -/
def ZkTS.PruneActionLogs (st : ZkState) (p : String) (keep : Nat) :
    Except String (Nat × ZkState) :=
  if storeDeleteFails st p then .error "prune failed"
  else
    .ok ((toDeleteNames st p keep).length,
      { st with nodes := st.nodes.filter (pruneKeep st p keep) })

/-- The dynamic type of `wrangler.TopologyServer()`: either the Zookeeper
implementation (`*zktopo.ZkTopologyServer`) or some other backend. -/
inductive TopoKind
  | zk
  | other
deriving DecidableEq

/-- The environment a command runs in: the topology-server kind plus the
wildcard expansion of `zk.ResolveWildcards` (an external collaborator:
each pattern expands independently to zero or more concrete paths). -/
structure VtctlEnv where
  topo : TopoKind
  expand : String → Except String (List String)

/-- Expand each pattern independently and concatenate the results,
propagating the first expansion error (models `zk.ResolveWildcards`). -/
def expandAll (f : String → Except String (List String)) :
    List String → Except String (List String)
  | [] => .ok []
  | a :: rest => do
      let l ← f a
      let ls ← expandAll f rest
      .ok (l ++ ls)

/-- `zkResolveWildcards` (plugin_zktopo.go:71-77): if the topology server is
not the Zookeeper one, return the arguments unchanged with no error;
otherwise expand them against the store. -/
def zkResolveWildcards (env : VtctlEnv) (args : List String) :
    Except String (List String) :=
  match env.topo with
  | .other => .ok args
  | .zk => expandAll env.expand args

/-- Outcome of a vtctl command: `relog.Fatal` (process termination), an
error return, or a success return with output. -/
inductive Outcome
  | fatal (msg : String)
  | err (msg : String)
  | ok (msg : String)
deriving DecidableEq

/-- The body of one `getActions` goroutine (plugin_zktopo.go:237-253):
fetch the child node, tolerate `ZNONODE` (falling through with empty data,
exactly as the source does), decode, and return the node — or `none` when the
child is skipped (each `none` branch corresponds to a `relog.Warning`). -/
def getActionsWorker (st : ZkState) (actionPath action : String) :
    Option ActionNode :=
  match (zconnGet st (pathJoin actionPath action)).2 with
  | some e =>
      if e = ZkErr.znonode then
        (ActionNodeFromJson (zconnGet st (pathJoin actionPath action)).1
          (pathJoin actionPath action)).toOption
      else none
  | none =>
      (ActionNodeFromJson (zconnGet st (pathJoin actionPath action)).1
        (pathJoin actionPath action)).toOption

/-- `getActions` (plugin_zktopo.go:226-258): list the children (a listing
failure fails the whole path), sort the names, fetch and decode each child,
and collect the survivors.  The concurrent appends are embedded in the sorted
child order. -/
def getActions (st : ZkState) (actionPath : String) :
    Except String (List ActionNode) :=
  match zconnChildren st actionPath with
  | .error e => .error ("getActions failed: " ++ actionPath ++ " " ++ e)
  | .ok actions =>
      let sorted := List.insertionSort strLeP actions
      .ok (sorted.filterMap (getActionsWorker st actionPath))

/-- `staleActions` (plugin_zktopo.go:101-119): run the store-level stale scan,
then convert every returned payload with `ActionNodeFromJson`, aborting on
the first decode failure (`return nil, err`). -/
def staleActions (st : ZkState) (zkActionPath : String) (maxStaleness : Nat) :
    Except String (List ActionNode) := do
  let actionNodes ← ZkTS.StaleActions st zkActionPath maxStaleness
  actionNodes.mapM (fun d => ActionNodeFromJson d "")

/-- The body of one `commandStaleActions` goroutine (plugin_zktopo.go:140-159):
check the path for stale actions (a failure counts one error and ends the
worker), print them, and if `purge` is set and any were found, purge that
path's purgeable children (a purge failure counts one error).  Returns the
updated store state, this worker's error contribution, and what it printed. -/
def staleWorker (purge : Bool) (maxStaleness : Nat) (st : ZkState)
    (zkActionPath : String) : ZkState × Nat × List ActionNode :=
  match staleActions st zkActionPath maxStaleness with
  | .error _ => (st, 1, [])
  | .ok sa =>
      if purge && !sa.isEmpty then
        match ZkTS.PurgeActions st zkActionPath with
        | .error _ => (st, 1, sa)
        | .ok st' => (st', 0, sa)
      else (st, 0, sa)

/-- The fan-out of `commandStaleActions` over its resolved paths, embedded as
a sequential fold; accumulates the shared error counter and the printed
actions. -/
def runStaleWorkers (purge : Bool) (maxStaleness : Nat) (st : ZkState) :
    List String → ZkState × Nat × List ActionNode
  | [] => (st, 0, [])
  | p :: rest =>
      let r1 := staleWorker purge maxStaleness st p
      let r2 := runStaleWorkers purge maxStaleness r1.1 rest
      (r2.1, r1.2.1 + r2.2.1, r1.2.2 ++ r2.2.2)

/-- Result of `commandStaleActions`: the returned outcome, the final store
state, the shared error counter, and the printed stale actions. -/
structure StaleRun where
  out : Outcome
  state : ZkState
  errCount : Nat
  printed : List ActionNode
deriving DecidableEq

/-- `commandStaleActions` (plugin_zktopo.go:121-166): fatal on zero
arguments, error when the topology server is not Zookeeper, resolve
wildcards, fan out one worker per path, and report an aggregate error iff the
shared counter is positive. -/
def commandStaleActions (env : VtctlEnv) (maxStaleness : Nat) (purge : Bool)
    (st : ZkState) (args : List String) : StaleRun :=
  if args.isEmpty then
    ⟨.fatal "action StaleActions requires <zk action path>", st, 0, []⟩
  else
    match env.topo with
    | .other => ⟨.err "StaleActions requires a ZkTopologyServer", st, 0, []⟩
    | .zk =>
        match zkResolveWildcards env args with
        | .error e => ⟨.err e, st, 0, []⟩
        | .ok zkPaths =>
            if (runStaleWorkers purge maxStaleness st zkPaths).2.1 > 0 then
              ⟨.err "some errors occurred, check the log",
                (runStaleWorkers purge maxStaleness st zkPaths).1,
                (runStaleWorkers purge maxStaleness st zkPaths).2.1,
                (runStaleWorkers purge maxStaleness st zkPaths).2.2⟩
            else
              ⟨.ok "", (runStaleWorkers purge maxStaleness st zkPaths).1,
                (runStaleWorkers purge maxStaleness st zkPaths).2.1,
                (runStaleWorkers purge maxStaleness st zkPaths).2.2⟩

/-- The sequential path loop of `commandPurgeActions`
(plugin_zktopo.go:92-97): purge each path in order, returning the first
error immediately (no fan-out, no error counter in the source). -/
def runPurgeSeq (st : ZkState) : List String → Outcome × ZkState
  | [] => (.ok "", st)
  | p :: rest =>
      match ZkTS.PurgeActions st p with
      | .error e => (.err e, st)
      | .ok st' => runPurgeSeq st' rest

/-- `commandPurgeActions` (plugin_zktopo.go:79-99): fatal on zero arguments,
error when the topology server is not Zookeeper, resolve wildcards, then
purge each path sequentially, stopping at the first failure. -/
def commandPurgeActions (env : VtctlEnv) (st : ZkState) (args : List String) :
    Outcome × ZkState :=
  if args.isEmpty then
    (.fatal "action PurgeActions requires <zk action path> ...", st)
  else
    match env.topo with
    | .other => (.err "PurgeActions requires a ZkTopologyServer", st)
    | .zk =>
        match zkResolveWildcards env args with
        | .error e => (.err e, st)
        | .ok zkActionPaths => runPurgeSeq st zkActionPaths

/-- The body of one `commandPruneActionLogs` goroutine
(plugin_zktopo.go:190-199): prune the path, logging the per-path deleted
count on success and counting one error on failure. -/
def pruneWorker (keep : Nat) (st : ZkState) (zkActionLogPath : String) :
    ZkState × Nat :=
  match ZkTS.PruneActionLogs st zkActionLogPath keep with
  | .error _ => (st, 1)
  | .ok r => (r.2, 0)

/-- The fan-out of `commandPruneActionLogs`, embedded as a sequential fold. -/
def runPruneWorkers (keep : Nat) (st : ZkState) :
    List String → ZkState × Nat
  | [] => (st, 0)
  | p :: rest =>
      let r1 := pruneWorker keep st p
      let r2 := runPruneWorkers keep r1.1 rest
      (r2.1, r1.2 + r2.2)

/-- Result of `commandPruneActionLogs`: outcome, final state, error counter. -/
structure PruneRun where
  out : Outcome
  state : ZkState
  errCount : Nat
deriving DecidableEq

/-- `commandPruneActionLogs` (plugin_zktopo.go:168-206): fatal on zero
arguments, resolve wildcards first (as the source does), then error when the
topology server is not Zookeeper, fan out one worker per path, and report an
aggregate error iff the shared counter is positive. -/
def commandPruneActionLogs (env : VtctlEnv) (keep : Nat) (st : ZkState)
    (args : List String) : PruneRun :=
  if args.isEmpty then
    ⟨.fatal "action PruneActionLogs requires <zk action log path> ...", st, 0⟩
  else
    match zkResolveWildcards env args with
    | .error e => ⟨.err e, st, 0⟩
    | .ok paths =>
        match env.topo with
        | .other => ⟨.err "PruneActionLogs requires a ZkTopologyServer", st, 0⟩
        | .zk =>
            if (runPruneWorkers keep st paths).2 > 0 then
              ⟨.err "some errors occurred, check the log",
                (runPruneWorkers keep st paths).1, (runPruneWorkers keep st paths).2⟩
            else
              ⟨.ok "", (runPruneWorkers keep st paths).1,
                (runPruneWorkers keep st paths).2⟩

/-- Insert into the path-keyed action map (`actionMap[node.Path()] = node`):
a later write for the same key overwrites the earlier one. -/
def actionMapInsert (m : List (String × ActionNode)) (k : String)
    (v : ActionNode) : List (String × ActionNode) :=
  (k, v) :: m.filter (fun kv => !(kv.1 == k))

/-- Map lookup (`actionMap[key]`). -/
def actionMapFind (m : List (String × ActionNode)) (k : String) :
    Option ActionNode :=
  (m.find? (fun kv => kv.1 == k)).map (fun kv => kv.2)

/-- The shard's action topology as seen by `listActionsByShard`: the
shard-level action path and the per-replica (tablet) action paths produced by
the external discovery collaborator. -/
structure ShardTopo where
  shardActionPath : String
  tabletActionPaths : List String

/-- The tablet-side merge of `listActionsByShard` (plugin_zktopo.go:278-308):
fetch each tablet action path, skipping failed fetches with a warning, and
merge every fetched node into the path-keyed map. -/
def insertActionNodes (m : List (String × ActionNode))
    (actionNodes : List ActionNode) : List (String × ActionNode) :=
  actionNodes.foldl (fun m n => actionMapInsert m n.path n) m

/-- The tablet-side merge of `listActionsByShard` (continued): fold the
per-tablet fetches into the shared map. -/
def tabletActionMap (st : ZkState) (paths : List String) :
    List (String × ActionNode) :=
  paths.foldl
    (fun m ap =>
      match getActions st ap with
      | .error _ => m
      | .ok actionNodes => insertActionNodes m actionNodes)
    []

/-- `listActionsByShard` (plugin_zktopo.go:260-325): print the shard-level
action nodes as fetched, then merge the tablet action nodes into a path-keyed
map and print those sorted by path.  The returned list is the printed
sequence. -/
def listActionsByShard (st : ZkState) (topo : ShardTopo) :
    Except String (List ActionNode) :=
  match getActions st topo.shardActionPath with
  | .error e => .error e
  | .ok shardActionNodes =>
      let actionMap := tabletActionMap st topo.tabletActionPaths
      let keys := List.insertionSort strLeP (actionMap.map (fun kv => kv.1))
      .ok (shardActionNodes ++ keys.filterMap (actionMapFind actionMap))

theorem mem_children_parent {st : ZkState} {p : String} {n : ZNode}
    (h : n ∈ st.children p) : n.parent = p := by
  have := (List.mem_filter.mp h).2
  exact eq_of_beq this

theorem filter_on_map {α β : Type} (f : α → β) (q : β → Bool) :
    ∀ l : List α, (l.filter (fun a => q (f a))).map f = (l.map f).filter q := by
  intro l
  induction l with
  | nil => rfl
  | cons a l ih =>
    cases h : q (f a) <;> simp [h, ih]

theorem children_of_filter (st : ZkState) (f : ZNode → Bool) (q : String) :
    ZkState.children { st with nodes := st.nodes.filter f } q
      = (st.children q).filter f := by
  unfold ZkState.children
  rw [List.filter_filter, List.filter_filter]
  exact List.filter_congr (fun n _ => by rw [Bool.and_comm])

theorem children_purge_self (st : ZkState) (p : String) :
    ZkState.children { st with nodes := st.nodes.filter (purgeKeep p) } p
      = (st.children p).filter (fun n => !ActionNodeCanBePurged n.data) := by
  rw [children_of_filter]
  refine List.filter_congr (fun n hn => ?_)
  have hp : n.parent = p := mem_children_parent hn
  simp [purgeKeep, hp]

theorem children_purge_other (st : ZkState) (p q : String) (hq : q ≠ p) :
    ZkState.children { st with nodes := st.nodes.filter (purgeKeep p) } q
      = st.children q := by
  rw [children_of_filter]
  have : ∀ n ∈ st.children q, purgeKeep p n = true := by
    intro n hn
    have hp : n.parent = q := mem_children_parent hn
    have : (n.parent == p) = false := by
      rw [hp]
      exact beq_false_of_ne hq
    simp [purgeKeep, this]
  calc (st.children q).filter (purgeKeep p)
      = (st.children q).filter (fun _ => true) := List.filter_congr this
    _ = st.children q := List.filter_true _

theorem children_prune_self (st : ZkState) (p : String) (keep : Nat) :
    ZkState.children { st with nodes := st.nodes.filter (pruneKeep st p keep) } p
      = (st.children p).filter (fun n => !(toDeleteNames st p keep).contains n.name) := by
  rw [children_of_filter]
  refine List.filter_congr (fun n hn => ?_)
  have hp : n.parent = p := mem_children_parent hn
  simp [pruneKeep, hp]

theorem children_prune_other (st : ZkState) (p q : String) (keep : Nat) (hq : q ≠ p) :
    ZkState.children { st with nodes := st.nodes.filter (pruneKeep st p keep) } q
      = st.children q := by
  rw [children_of_filter]
  have : ∀ n ∈ st.children q, pruneKeep st p keep n = true := by
    intro n hn
    have hp : n.parent = q := mem_children_parent hn
    have : (n.parent == p) = false := by
      rw [hp]
      exact beq_false_of_ne hq
    simp [pruneKeep, this]
  calc (st.children q).filter (pruneKeep st p keep)
      = (st.children q).filter (fun _ => true) := List.filter_congr this
    _ = st.children q := List.filter_true _

/-- The stale nodes a successful `staleActions` run decodes for a path. -/
def decodedStale (st : ZkState) (p : String) (maxStaleness : Nat) :
    List ActionNode :=
  (staleChildren st p maxStaleness).filterMap
    (fun n => (ActionNodeFromJson n.data "").toOption)

theorem staleChildren_valid {st : ZkState} {p : String} {maxStaleness : Nat}
    {n : ZNode} (h : n ∈ staleChildren st p maxStaleness) :
    ∃ k s t, n.data = RawData.valid k s t := by
  have hs := (List.mem_filter.mp h).2
  have := (Bool.and_eq_true _ _).mp hs |>.2
  unfold ActionNodeIsStale at this
  have := (Bool.and_eq_true _ _).mp this |>.2
  cases hd : n.data with
  | valid k s t => exact ⟨k, s, t, rfl⟩
  | empty => rw [hd] at this; cases this
  | malformed => rw [hd] at this; cases this

theorem mapM_decode_of_valid :
    ∀ ds : List RawData, (∀ d ∈ ds, ∃ k s t, d = RawData.valid k s t) →
      ds.mapM (fun d => ActionNodeFromJson d "") =
        .ok (ds.filterMap (fun d => (ActionNodeFromJson d "").toOption)) := by
  intro ds
  induction ds with
  | nil => intro _; rfl
  | cons d ds ih =>
    intro h
    obtain ⟨k, s, t, hd⟩ := h d (List.mem_cons_self d ds)
    have hrest := ih (fun d' hd' => h d' (List.mem_cons_of_mem d hd'))
    rw [List.mapM_cons, hrest]
    subst hd
    rfl

theorem staleActions_ok (st : ZkState) (p : String) (maxStaleness : Nat)
    (h : st.failing.contains p = false) :
    staleActions st p maxStaleness = .ok (decodedStale st p maxStaleness) := by
  unfold staleActions ZkTS.StaleActions
  rw [h]
  show ((staleChildren st p maxStaleness).map (fun n => n.data)).mapM
      (fun d => ActionNodeFromJson d "") = _
  rw [mapM_decode_of_valid _ (by
    intro d hd
    obtain ⟨n, hn, rfl⟩ := List.mem_map.mp hd
    exact staleChildren_valid hn)]
  rw [List.filterMap_map]
  rfl

theorem filterMap_length_of_isSome {α β : Type} (g : α → Option β) :
    ∀ l : List α, (∀ a ∈ l, (g a).isSome = true) →
      (l.filterMap g).length = l.length := by
  intro l
  induction l with
  | nil => intro _; rfl
  | cons a l ih =>
    intro h
    obtain ⟨b, hb⟩ := Option.isSome_iff_exists.mp (h a (List.mem_cons_self a l))
    rw [List.filterMap_cons, hb]
    simp [ih (fun a' ha' => h a' (List.mem_cons_of_mem a ha'))]

theorem decodedStale_length (st : ZkState) (p : String) (maxStaleness : Nat) :
    (decodedStale st p maxStaleness).length
      = (staleChildren st p maxStaleness).length := by
  unfold decodedStale
  refine filterMap_length_of_isSome _ _ (fun n hn => ?_)
  obtain ⟨k, s, t, hd⟩ := staleChildren_valid hn
  rw [hd]
  rfl

theorem decodedStale_isEmpty (st : ZkState) (p : String) (maxStaleness : Nat) :
    (decodedStale st p maxStaleness).isEmpty
      = (staleChildren st p maxStaleness).isEmpty := by
  cases h1 : (decodedStale st p maxStaleness).isEmpty <;>
    cases h2 : (staleChildren st p maxStaleness).isEmpty <;>
      first
      | rfl
      | (exfalso
         have hL := decodedStale_length st p maxStaleness
         simp only [List.isEmpty_iff] at h1 h2
         simp only [List.isEmpty_eq_false] at *
         first
         | (rw [h2, List.length_nil] at hL
            exact h1 (List.length_eq_zero.mp hL))
         | (rw [h1, List.length_nil] at hL
            exact h2 (List.length_eq_zero.mp hL.symm)))

/-- A path fails inside the StaleActions fan-out iff the stale scan fails
there, or the follow-up purge is triggered and the delete phase fails. -/
def stalePathFails (purge : Bool) (maxStaleness : Nat) (st : ZkState)
    (p : String) : Bool :=
  st.failing.contains p ||
    (purge && !(staleChildren st p maxStaleness).isEmpty
      && st.failingDelete.contains p)

/-- What a successful StaleActions worker leaves as the children of its path:
purged when the follow-up purge was triggered, untouched otherwise. -/
def staleEffectChildren (purge : Bool) (maxStaleness : Nat) (st : ZkState)
    (p : String) : List ZNode :=
  if purge && !(staleChildren st p maxStaleness).isEmpty then
    (st.children p).filter (fun n => !ActionNodeCanBePurged n.data)
  else st.children p

theorem stalePathFails_congr (purge : Bool) (maxStaleness : Nat)
    {st st' : ZkState} (q : String) (hf : st'.failing = st.failing)
    (hd : st'.failingDelete = st.failingDelete) (hn : st'.now = st.now)
    (hc : st'.children q = st.children q) :
    stalePathFails purge maxStaleness st' q
      = stalePathFails purge maxStaleness st q := by
  unfold stalePathFails staleChildren
  rw [hf, hd, hn, hc]

theorem staleEffectChildren_congr (purge : Bool) (maxStaleness : Nat)
    {st st' : ZkState} (q : String) (hc : st'.children q = st.children q)
    (hn : st'.now = st.now) :
    staleEffectChildren purge maxStaleness st' q
      = staleEffectChildren purge maxStaleness st q := by
  unfold staleEffectChildren staleChildren
  rw [hc, hn]

theorem staleWorker_fail (purge : Bool) (maxStaleness : Nat) (st : ZkState)
    (p : String) (h : st.failing.contains p = true) :
    staleWorker purge maxStaleness st p = (st, 1, []) := by
  unfold staleWorker staleActions ZkTS.StaleActions
  rw [h]
  rfl

theorem staleWorker_eq_of_ok (purge : Bool) (maxStaleness : Nat) (st : ZkState)
    (p : String) (h : st.failing.contains p = false) :
    staleWorker purge maxStaleness st p =
      if purge && !(staleChildren st p maxStaleness).isEmpty then
        (if storeDeleteFails st p then (st, 1, decodedStale st p maxStaleness)
         else ({ st with nodes := st.nodes.filter (purgeKeep p) }, 0,
               decodedStale st p maxStaleness))
      else (st, 0, decodedStale st p maxStaleness) := by
  unfold staleWorker
  rw [staleActions_ok st p maxStaleness h]
  show (if purge && !(decodedStale st p maxStaleness).isEmpty then
          match ZkTS.PurgeActions st p with
          | .error _ => (st, 1, decodedStale st p maxStaleness)
          | .ok st' => (st', 0, decodedStale st p maxStaleness)
        else (st, 0, decodedStale st p maxStaleness)) = _
  rw [decodedStale_isEmpty]
  cases hcond : purge && !(staleChildren st p maxStaleness).isEmpty
  · simp
  · simp only [if_pos rfl]
    unfold ZkTS.PurgeActions
    cases hdf : storeDeleteFails st p <;> simp [hdf]

theorem staleWorker_spec (purge : Bool) (maxStaleness : Nat) (st : ZkState)
    (p : String) :
    (staleWorker purge maxStaleness st p).1.failing = st.failing ∧
    (staleWorker purge maxStaleness st p).1.failingDelete = st.failingDelete ∧
    (staleWorker purge maxStaleness st p).1.now = st.now ∧
    (∀ q, q ≠ p → (staleWorker purge maxStaleness st p).1.children q
        = st.children q) ∧
    (staleWorker purge maxStaleness st p).2.1
      = (if stalePathFails purge maxStaleness st p then 1 else 0) ∧
    (stalePathFails purge maxStaleness st p = false →
      (staleWorker purge maxStaleness st p).1.children p
        = staleEffectChildren purge maxStaleness st p) := by
  cases hf : st.failing.contains p
  · rw [staleWorker_eq_of_ok purge maxStaleness st p hf]
    cases hcond : purge && !(staleChildren st p maxStaleness).isEmpty
    · have hfp : stalePathFails purge maxStaleness st p = false := by
        unfold stalePathFails
        rw [hf, hcond]
        rfl
      have heff : staleEffectChildren purge maxStaleness st p = st.children p := by
        unfold staleEffectChildren
        rw [hcond]
        rfl
      exact ⟨rfl, rfl, rfl, fun q _ => rfl, by rw [hfp]; rfl,
        fun _ => heff.symm⟩
    · cases hdf : storeDeleteFails st p
      · have hfd : st.failingDelete.contains p = false := by
          unfold storeDeleteFails at hdf
          rw [hf] at hdf
          simpa using hdf
        have hfp : stalePathFails purge maxStaleness st p = false := by
          unfold stalePathFails
          rw [hf, hcond, hfd]
          rfl
        have heff : staleEffectChildren purge maxStaleness st p
            = (st.children p).filter (fun n => !ActionNodeCanBePurged n.data) := by
          unfold staleEffectChildren
          rw [hcond]
          rfl
        exact ⟨rfl, rfl, rfl, fun q hq => children_purge_other st p q hq,
          by rw [hfp]; rfl,
          fun _ => (children_purge_self st p).trans heff.symm⟩
      · have hfd : st.failingDelete.contains p = true := by
          unfold storeDeleteFails at hdf
          rw [hf] at hdf
          simpa using hdf
        have hfp : stalePathFails purge maxStaleness st p = true := by
          unfold stalePathFails
          rw [hf, hcond, hfd]
          rfl
        exact ⟨rfl, rfl, rfl, fun q _ => rfl, by rw [hfp]; rfl,
          fun h => by rw [hfp] at h; cases h⟩
  · rw [staleWorker_fail purge maxStaleness st p hf]
    have hfp : stalePathFails purge maxStaleness st p = true := by
      unfold stalePathFails
      rw [hf]
      rfl
    exact ⟨rfl, rfl, rfl, fun q _ => rfl, by rw [hfp]; rfl,
      fun h => by rw [hfp] at h; cases h⟩

theorem runStaleWorkers_spec (purge : Bool) (maxStaleness : Nat) :
    ∀ (paths : List String) (st : ZkState), paths.Nodup →
      (runStaleWorkers purge maxStaleness st paths).1.failing = st.failing ∧
      (runStaleWorkers purge maxStaleness st paths).1.failingDelete
        = st.failingDelete ∧
      (runStaleWorkers purge maxStaleness st paths).1.now = st.now ∧
      (∀ q, q ∉ paths →
        (runStaleWorkers purge maxStaleness st paths).1.children q
          = st.children q) ∧
      (runStaleWorkers purge maxStaleness st paths).2.1
        = paths.countP (stalePathFails purge maxStaleness st) ∧
      (∀ p ∈ paths, stalePathFails purge maxStaleness st p = false →
        (runStaleWorkers purge maxStaleness st paths).1.children p
          = staleEffectChildren purge maxStaleness st p) := by
  intro paths
  induction paths with
  | nil =>
    intro st _
    exact ⟨rfl, rfl, rfl, fun q _ => rfl, (List.countP_nil _).symm,
      fun p hp => absurd hp (List.not_mem_nil p)⟩
  | cons p rest ih =>
    intro st hnd
    have hp : p ∉ rest := (List.nodup_cons.mp hnd).1
    have hrest : rest.Nodup := (List.nodup_cons.mp hnd).2
    obtain ⟨wf, wd, wn, wo, we, weff⟩ := staleWorker_spec purge maxStaleness st p
    obtain ⟨rf, rd, rn, ro, re, reff⟩ :=
      ih (staleWorker purge maxStaleness st p).1 hrest
    have hcong : ∀ q ∈ rest,
        stalePathFails purge maxStaleness (staleWorker purge maxStaleness st p).1 q
          = stalePathFails purge maxStaleness st q := by
      intro q hq
      exact stalePathFails_congr purge maxStaleness q wf wd wn
        (wo q (fun he => hp (he ▸ hq)))
    refine ⟨?_, ?_, ?_, ?_, ?_, ?_⟩
    · show (runStaleWorkers purge maxStaleness
          (staleWorker purge maxStaleness st p).1 rest).1.failing = st.failing
      rw [rf, wf]
    · show (runStaleWorkers purge maxStaleness
          (staleWorker purge maxStaleness st p).1 rest).1.failingDelete
        = st.failingDelete
      rw [rd, wd]
    · show (runStaleWorkers purge maxStaleness
          (staleWorker purge maxStaleness st p).1 rest).1.now = st.now
      rw [rn, wn]
    · intro q hq
      have hq1 : q ∉ rest := fun h => hq (List.mem_cons_of_mem _ h)
      have hq2 : q ≠ p := fun h => hq (h ▸ List.mem_cons_self p rest)
      show (runStaleWorkers purge maxStaleness
          (staleWorker purge maxStaleness st p).1 rest).1.children q
        = st.children q
      rw [ro q hq1, wo q hq2]
    · show (staleWorker purge maxStaleness st p).2.1
          + (runStaleWorkers purge maxStaleness
              (staleWorker purge maxStaleness st p).1 rest).2.1
        = List.countP (stalePathFails purge maxStaleness st) (p :: rest)
      rw [we, re, List.countP_cons,
        List.countP_congr (fun q hq => by rw [hcong q hq])]
      cases h : stalePathFails purge maxStaleness st p <;> simp [h] <;> omega
    · intro q hq hfail
      rcases List.mem_cons.mp hq with rfl | hq'
      · show (runStaleWorkers purge maxStaleness
            (staleWorker purge maxStaleness st q).1 rest).1.children q
          = staleEffectChildren purge maxStaleness st q
        rw [ro q hp]
        exact weff hfail
      · have hqp : q ≠ p := fun he => hp (he ▸ hq')
        show (runStaleWorkers purge maxStaleness
            (staleWorker purge maxStaleness st p).1 rest).1.children q
          = staleEffectChildren purge maxStaleness st q
        rw [reff q hq' (by rw [hcong q hq']; exact hfail)]
        exact staleEffectChildren_congr purge maxStaleness q (wo q hqp) wn

/-- What a successful prune of `p` leaves as `p`'s children: everything not
named for deletion. -/
def prunedChildren (st : ZkState) (p : String) (keep : Nat) : List ZNode :=
  (st.children p).filter
    (fun n => !(toDeleteNames st p keep).contains n.name)

theorem storeDeleteFails_congr {st st' : ZkState} (q : String)
    (hf : st'.failing = st.failing) (hd : st'.failingDelete = st.failingDelete) :
    storeDeleteFails st' q = storeDeleteFails st q := by
  unfold storeDeleteFails
  rw [hf, hd]

theorem prunedChildren_congr {st st' : ZkState} (q : String) (keep : Nat)
    (hc : st'.children q = st.children q) :
    prunedChildren st' q keep = prunedChildren st q keep := by
  unfold prunedChildren toDeleteNames sortedChildNames ZkState.childNames
  rw [hc]

theorem pruneWorker_spec (keep : Nat) (st : ZkState) (p : String) :
    (pruneWorker keep st p).1.failing = st.failing ∧
    (pruneWorker keep st p).1.failingDelete = st.failingDelete ∧
    (pruneWorker keep st p).1.now = st.now ∧
    (∀ q, q ≠ p → (pruneWorker keep st p).1.children q = st.children q) ∧
    (pruneWorker keep st p).2 = (if storeDeleteFails st p then 1 else 0) ∧
    (storeDeleteFails st p = false →
      (pruneWorker keep st p).1.children p = prunedChildren st p keep) := by
  unfold pruneWorker ZkTS.PruneActionLogs
  cases hdf : storeDeleteFails st p
  · exact ⟨rfl, rfl, rfl, fun q hq => children_prune_other st p q keep hq, rfl,
      fun _ => children_prune_self st p keep⟩
  · exact ⟨rfl, rfl, rfl, fun q _ => rfl, rfl, fun h => by cases h⟩

theorem runPruneWorkers_spec (keep : Nat) :
    ∀ (paths : List String) (st : ZkState), paths.Nodup →
      (runPruneWorkers keep st paths).1.failing = st.failing ∧
      (runPruneWorkers keep st paths).1.failingDelete = st.failingDelete ∧
      (runPruneWorkers keep st paths).1.now = st.now ∧
      (∀ q, q ∉ paths →
        (runPruneWorkers keep st paths).1.children q = st.children q) ∧
      (runPruneWorkers keep st paths).2
        = paths.countP (storeDeleteFails st) ∧
      (∀ p ∈ paths, storeDeleteFails st p = false →
        (runPruneWorkers keep st paths).1.children p
          = prunedChildren st p keep) := by
  intro paths
  induction paths with
  | nil =>
    intro st _
    exact ⟨rfl, rfl, rfl, fun q _ => rfl, (List.countP_nil _).symm,
      fun p hp => absurd hp (List.not_mem_nil p)⟩
  | cons p rest ih =>
    intro st hnd
    have hp : p ∉ rest := (List.nodup_cons.mp hnd).1
    have hrest : rest.Nodup := (List.nodup_cons.mp hnd).2
    obtain ⟨wf, wd, wn, wo, we, weff⟩ := pruneWorker_spec keep st p
    obtain ⟨rf, rd, rn, ro, re, reff⟩ := ih (pruneWorker keep st p).1 hrest
    have hcong : ∀ q ∈ rest,
        storeDeleteFails (pruneWorker keep st p).1 q = storeDeleteFails st q :=
      fun q _ => storeDeleteFails_congr q wf wd
    refine ⟨?_, ?_, ?_, ?_, ?_, ?_⟩
    · show (runPruneWorkers keep (pruneWorker keep st p).1 rest).1.failing
        = st.failing
      rw [rf, wf]
    · show (runPruneWorkers keep (pruneWorker keep st p).1 rest).1.failingDelete
        = st.failingDelete
      rw [rd, wd]
    · show (runPruneWorkers keep (pruneWorker keep st p).1 rest).1.now = st.now
      rw [rn, wn]
    · intro q hq
      have hq1 : q ∉ rest := fun h => hq (List.mem_cons_of_mem _ h)
      have hq2 : q ≠ p := fun h => hq (h ▸ List.mem_cons_self p rest)
      show (runPruneWorkers keep (pruneWorker keep st p).1 rest).1.children q
        = st.children q
      rw [ro q hq1, wo q hq2]
    · show (pruneWorker keep st p).2
          + (runPruneWorkers keep (pruneWorker keep st p).1 rest).2
        = List.countP (storeDeleteFails st) (p :: rest)
      rw [we, re, List.countP_cons,
        List.countP_congr (fun q hq => by rw [hcong q hq])]
      cases h : storeDeleteFails st p <;> simp [h] <;> omega
    · intro q hq hfail
      rcases List.mem_cons.mp hq with rfl | hq'
      · show (runPruneWorkers keep (pruneWorker keep st q).1 rest).1.children q
          = prunedChildren st q keep
        rw [ro q hp]
        exact weff hfail
      · have hqp : q ≠ p := fun he => hp (he ▸ hq')
        show (runPruneWorkers keep (pruneWorker keep st p).1 rest).1.children q
          = prunedChildren st q keep
        rw [reff q hq' (by rw [hcong q hq']; exact hfail)]
        exact prunedChildren_congr q keep (wo q hqp)

theorem runPurgeSeq_cons_ok (st : ZkState) (p : String) (rest : List String)
    (h : storeDeleteFails st p = false) :
    runPurgeSeq st (p :: rest)
      = runPurgeSeq { st with nodes := st.nodes.filter (purgeKeep p) } rest := by
  show (match ZkTS.PurgeActions st p with
        | .error e => (Outcome.err e, st)
        | .ok st' => runPurgeSeq st' rest) = _
  unfold ZkTS.PurgeActions
  rw [h]
  rfl

theorem runPurgeSeq_cons_err (st : ZkState) (p : String) (rest : List String)
    (h : storeDeleteFails st p = true) :
    runPurgeSeq st (p :: rest) = (Outcome.err "purge failed", st) := by
  show (match ZkTS.PurgeActions st p with
        | .error e => (Outcome.err e, st)
        | .ok st' => runPurgeSeq st' rest) = _
  unfold ZkTS.PurgeActions
  rw [h]
  rfl

theorem runPurgeSeq_spec :
    ∀ (paths : List String) (st : ZkState),
      ((runPurgeSeq st paths).1 = Outcome.ok "" ↔
        paths.countP (storeDeleteFails st) = 0) ∧
      (paths.countP (storeDeleteFails st) = 0 → paths.Nodup →
        (∀ q, q ∉ paths → (runPurgeSeq st paths).2.children q = st.children q) ∧
        (∀ p ∈ paths, (runPurgeSeq st paths).2.children p
          = (st.children p).filter (fun n => !ActionNodeCanBePurged n.data))) := by
  intro paths
  induction paths with
  | nil =>
    intro st
    exact ⟨by simp [runPurgeSeq], fun _ _ =>
      ⟨fun q _ => rfl, fun p hp => absurd hp (List.not_mem_nil p)⟩⟩
  | cons p rest ih =>
    intro st
    cases hdf : storeDeleteFails st p
    · rw [runPurgeSeq_cons_ok st p rest hdf]
      have hst' := ih { st with nodes := st.nodes.filter (purgeKeep p) }
      have hcnt : rest.countP
            (storeDeleteFails { st with nodes := st.nodes.filter (purgeKeep p) })
          = rest.countP (storeDeleteFails st) :=
        List.countP_congr (fun q _ =>
          iff_of_eq (congrArg (fun b => b = true)
            (storeDeleteFails_congr q rfl rfl)))
      constructor
      · rw [hst'.1, hcnt, List.countP_cons, hdf]
        simp
      · intro h0 hnd
        have hp : p ∉ rest := (List.nodup_cons.mp hnd).1
        have hrest : rest.Nodup := (List.nodup_cons.mp hnd).2
        have h0' : rest.countP
            (storeDeleteFails { st with nodes := st.nodes.filter (purgeKeep p) })
              = 0 := by
          rw [hcnt]
          rw [List.countP_cons, hdf] at h0
          simpa using h0
        obtain ⟨ho, he⟩ := hst'.2 h0' hrest
        constructor
        · intro q hq
          have hq1 : q ∉ rest := fun h => hq (List.mem_cons_of_mem _ h)
          have hq2 : q ≠ p := fun h => hq (h ▸ List.mem_cons_self p rest)
          rw [ho q hq1]
          exact children_purge_other st p q hq2
        · intro q hq
          rcases List.mem_cons.mp hq with rfl | hq'
          · rw [ho q hp]
            exact children_purge_self st q
          · have hqp : q ≠ p := fun hE => hp (hE ▸ hq')
            rw [he q hq']
            rw [children_purge_other st p q hqp]
    · rw [runPurgeSeq_cons_err st p rest hdf]
      constructor
      · rw [List.countP_cons, hdf]
        simp
      · intro h0 _
        rw [List.countP_cons, hdf] at h0
        simp at h0

/-- An empty coordination store (used by concrete witnesses). -/
def emptyZkState : ZkState :=
  ⟨[], [], [], 0⟩

/-- C9: for every pattern list, when the active topology server does not
support wildcard expansion (is not the Zookeeper server), wildcard resolution
returns the input patterns unchanged and never returns an error
(plugin_zktopo.go:71-77: the failed downcast returns `args, nil`). -/
theorem C9_resolve_passthrough_without_zk :
    ∀ (f : String → Except String (List String)) (args : List String),
      zkResolveWildcards ⟨TopoKind.other, f⟩ args = .ok args := by
  intro f args
  rfl

/-- C10: every batch command invoked with zero path arguments returns the
`relog.Fatal` outcome (process termination) with the store state untouched,
before any wildcard resolution (the environment, including the expansion
function, is never consulted) and before any store access — rather than
returning an error value or succeeding as a no-op. -/
theorem C10_fatal_on_zero_args :
    ∀ (env : VtctlEnv) (st : ZkState) (maxStaleness keep : Nat) (purge : Bool),
      commandPurgeActions env st []
        = (Outcome.fatal "action PurgeActions requires <zk action path> ...", st) ∧
      commandStaleActions env maxStaleness purge st []
        = ⟨Outcome.fatal "action StaleActions requires <zk action path>", st, 0, []⟩ ∧
      commandPruneActionLogs env keep st []
        = ⟨Outcome.fatal "action PruneActionLogs requires <zk action log path> ...",
            st, 0⟩ := by
  intro env st maxStaleness keep purge
  exact ⟨rfl, rfl, rfl⟩

/-- C8: when a batch command runs while the active topology server is not the
Zookeeper one, it fails with an error before any per-path worker starts and
the store state is returned untouched (no node read or deleted).  For
PurgeActions and StaleActions the check precedes wildcard resolution; for
PruneActionLogs resolution runs first but degrades to the identity without
touching the store (plugin_zktopo.go:84-87, 128-131, 176-184). -/
theorem C8_error_without_zk_topo :
    ∀ (f : String → Except String (List String)) (st : ZkState)
      (args : List String) (maxStaleness keep : Nat) (purge : Bool),
      args ≠ [] →
      commandPurgeActions ⟨TopoKind.other, f⟩ st args
        = (Outcome.err "PurgeActions requires a ZkTopologyServer", st) ∧
      commandStaleActions ⟨TopoKind.other, f⟩ maxStaleness purge st args
        = ⟨Outcome.err "StaleActions requires a ZkTopologyServer", st, 0, []⟩ ∧
      commandPruneActionLogs ⟨TopoKind.other, f⟩ keep st args
        = ⟨Outcome.err "PruneActionLogs requires a ZkTopologyServer", st, 0⟩ := by
  intro f st args maxStaleness keep purge hne
  cases args with
  | nil => exact absurd rfl hne
  | cons a l => exact ⟨rfl, rfl, rfl⟩

theorem C8_witness :
    commandPurgeActions ⟨TopoKind.other, fun s => Except.ok [s]⟩ emptyZkState
        ["/zk/global/vt/keyspaces/k/shards/0/action"]
      = (Outcome.err "PurgeActions requires a ZkTopologyServer", emptyZkState) ∧
    commandStaleActions ⟨TopoKind.other, fun s => Except.ok [s]⟩ 5 true
        emptyZkState ["/zk/global/vt/keyspaces/k/shards/0/action"]
      = ⟨Outcome.err "StaleActions requires a ZkTopologyServer",
          emptyZkState, 0, []⟩ ∧
    commandPruneActionLogs ⟨TopoKind.other, fun s => Except.ok [s]⟩ 10
        emptyZkState ["/zk/global/vt/keyspaces/k/shards/0/action"]
      = ⟨Outcome.err "PruneActionLogs requires a ZkTopologyServer",
          emptyZkState, 0⟩ :=
  C8_error_without_zk_topo (fun s => Except.ok [s]) emptyZkState
    ["/zk/global/vt/keyspaces/k/shards/0/action"] 5 10 true (by decide)

/-- C7: when the supplied (non-empty) pattern set resolves to zero concrete
paths, every batch operation performs no store reads or deletes (the state is
returned untouched) and reports success — an empty resolved set is a no-op,
not an error. -/
theorem C7_noop_on_empty_resolution :
    ∀ (f : String → Except String (List String)) (st : ZkState)
      (args : List String) (maxStaleness keep : Nat) (purge : Bool),
      args ≠ [] → expandAll f args = .ok [] →
      commandPurgeActions ⟨TopoKind.zk, f⟩ st args = (Outcome.ok "", st) ∧
      commandStaleActions ⟨TopoKind.zk, f⟩ maxStaleness purge st args
        = ⟨Outcome.ok "", st, 0, []⟩ ∧
      commandPruneActionLogs ⟨TopoKind.zk, f⟩ keep st args
        = ⟨Outcome.ok "", st, 0⟩ := by
  intro f st args maxStaleness keep purge hne hres
  cases args with
  | nil => exact absurd rfl hne
  | cons a l =>
    refine ⟨?_, ?_, ?_⟩
    · show (match zkResolveWildcards ⟨TopoKind.zk, f⟩ (a :: l) with
            | .error e => (Outcome.err e, st)
            | .ok zkActionPaths => runPurgeSeq st zkActionPaths) = _
      rw [show zkResolveWildcards ⟨TopoKind.zk, f⟩ (a :: l) = .ok [] from hres]
      rfl
    · show (match zkResolveWildcards ⟨TopoKind.zk, f⟩ (a :: l) with
            | .error e => (⟨Outcome.err e, st, 0, []⟩ : StaleRun)
            | .ok zkPaths =>
                if (runStaleWorkers purge maxStaleness st zkPaths).2.1 > 0 then
                  ⟨Outcome.err "some errors occurred, check the log",
                    (runStaleWorkers purge maxStaleness st zkPaths).1,
                    (runStaleWorkers purge maxStaleness st zkPaths).2.1,
                    (runStaleWorkers purge maxStaleness st zkPaths).2.2⟩
                else
                  ⟨Outcome.ok "", (runStaleWorkers purge maxStaleness st zkPaths).1,
                    (runStaleWorkers purge maxStaleness st zkPaths).2.1,
                    (runStaleWorkers purge maxStaleness st zkPaths).2.2⟩) = _
      rw [show zkResolveWildcards ⟨TopoKind.zk, f⟩ (a :: l) = .ok [] from hres]
      rfl
    · show (match zkResolveWildcards ⟨TopoKind.zk, f⟩ (a :: l) with
            | .error e => (⟨Outcome.err e, st, 0⟩ : PruneRun)
            | .ok paths =>
                if (runPruneWorkers keep st paths).2 > 0 then
                  ⟨Outcome.err "some errors occurred, check the log",
                    (runPruneWorkers keep st paths).1,
                    (runPruneWorkers keep st paths).2⟩
                else
                  ⟨Outcome.ok "", (runPruneWorkers keep st paths).1,
                    (runPruneWorkers keep st paths).2⟩) = _
      rw [show zkResolveWildcards ⟨TopoKind.zk, f⟩ (a :: l) = .ok [] from hres]
      rfl

theorem C7_witness :
    commandPurgeActions ⟨TopoKind.zk, fun _ => Except.ok []⟩ emptyZkState
        ["/zk/global/vt/keyspaces/*/shards/*/action"]
      = (Outcome.ok "", emptyZkState) ∧
    commandStaleActions ⟨TopoKind.zk, fun _ => Except.ok []⟩ 5 true emptyZkState
        ["/zk/global/vt/keyspaces/*/shards/*/action"]
      = ⟨Outcome.ok "", emptyZkState, 0, []⟩ ∧
    commandPruneActionLogs ⟨TopoKind.zk, fun _ => Except.ok []⟩ 10 emptyZkState
        ["/zk/global/vt/keyspaces/*/shards/*/action"]
      = ⟨Outcome.ok "", emptyZkState, 0⟩ :=
  C7_noop_on_empty_resolution (fun _ => Except.ok []) emptyZkState
    ["/zk/global/vt/keyspaces/*/shards/*/action"] 5 10 true (by decide) rfl

/-- C6: a child node that vanishes between listing and fetching (its fetch
reports `ZNONODE`) is skipped by the `getActions` worker (the `none` branches
correspond to `relog.Warning` calls), is excluded from the returned list —
which consists exactly of the per-child worker successes — and the path still
returns success; a vanished node is never a fatal error. -/
theorem C6_vanished_node_tolerated :
    ∀ (st : ZkState) (p : String),
      (∀ name,
        zconnGet st (pathJoin p name) = (RawData.empty, some ZkErr.znonode) →
        getActionsWorker st p name = none) ∧
      (st.failing.contains p = false →
        getActions st p
          = .ok ((List.insertionSort strLeP (st.childNames p)).filterMap
              (getActionsWorker st p)) ∧
        ∀ a ∈ (List.insertionSort strLeP (st.childNames p)).filterMap
            (getActionsWorker st p),
          ∃ name, name ∈ st.childNames p ∧
            getActionsWorker st p name = some a) := by
  intro st p
  constructor
  · intro name h
    unfold getActionsWorker
    rw [h]
    rfl
  · intro hf
    constructor
    · unfold getActions zconnChildren
      rw [hf]
      rfl
    · intro a ha
      obtain ⟨name, hmem, hsome⟩ := List.mem_filterMap.mp ha
      exact ⟨name, (List.perm_insertionSort strLeP (st.childNames p)).mem_iff.mp
        hmem, hsome⟩

/-- Store state with one vanished (ghost) child and one live child. -/
def stGhost : ZkState :=
  ⟨[⟨"/p", "a", RawData.valid "k" ActionState.pending "t", 0, true⟩,
    ⟨"/p", "b", RawData.valid "k" ActionState.pending "t", 0, false⟩],
   [], [], 10⟩

theorem C6_witness :
    (stGhost.failing.contains "/p" = false) ∧
    zconnGet stGhost (pathJoin "/p" "a")
      = (RawData.empty, some ZkErr.znonode) ∧
    getActionsWorker stGhost "/p" "a" = none ∧
    getActions stGhost "/p"
      = .ok ((List.insertionSort strLeP (stGhost.childNames "/p")).filterMap
          (getActionsWorker stGhost "/p")) :=
  ⟨by decide, by decide,
    (C6_vanished_node_tolerated stGhost "/p").1 "a" (by decide),
    ((C6_vanished_node_tolerated stGhost "/p").2 (by decide)).1⟩

/-- C4: a fetched payload that fails to decode is excluded from the results
with a logged warning and the operation for its path does not fail.  In
`getActions` (used by `listShardActions`) the worker drops the malformed child
(its `none` is a `relog.Warning`) and the path still succeeds.  In the
StaleActions pipeline the store-level scan — modelled from the spec, which
excludes undecodable payloads there — hands the plugin only decodable
payloads, so `staleActions` succeeds, returns exactly the decoded stale
nodes, and the worker contributes no failure; every returned node comes from
a well-formed payload. -/
theorem C4_decode_failure_isolated :
    ∀ (st : ZkState) (p name : String) (maxStaleness : Nat),
      ((zconnGet st (pathJoin p name)).1 = RawData.malformed →
        getActionsWorker st p name = none) ∧
      (st.failing.contains p = false →
        getActions st p
          = .ok ((List.insertionSort strLeP (st.childNames p)).filterMap
              (getActionsWorker st p)) ∧
        staleActions st p maxStaleness = .ok (decodedStale st p maxStaleness) ∧
        staleWorker false maxStaleness st p
          = (st, 0, decodedStale st p maxStaleness) ∧
        ∀ a ∈ decodedStale st p maxStaleness,
          ∃ n, n ∈ staleChildren st p maxStaleness ∧
            (∃ k s t, n.data = RawData.valid k s t) ∧
            ActionNodeFromJson n.data "" = .ok a) := by
  intro st p name maxStaleness
  constructor
  · intro h1
    unfold getActionsWorker
    cases h2 : (zconnGet st (pathJoin p name)).2 with
    | none =>
      rw [h1]
      rfl
    | some e =>
      cases e
      · rw [h1]
        rfl
      · rfl
  · intro hf
    refine ⟨?_, staleActions_ok st p maxStaleness hf, ?_, ?_⟩
    · unfold getActions zconnChildren
      rw [hf]
      rfl
    · rw [staleWorker_eq_of_ok false maxStaleness st p hf]
      rfl
    · intro a ha
      obtain ⟨n, hn, hsome⟩ := List.mem_filterMap.mp ha
      obtain ⟨k, s, t, hd⟩ := staleChildren_valid hn
      rw [hd] at hsome
      refine ⟨n, hn, ⟨k, s, t, hd⟩, ?_⟩
      rw [hd]
      simp only [ActionNodeFromJson, Except.toOption] at hsome ⊢
      rw [Option.some.inj hsome]

/-- Store state with one malformed child and one stale well-formed child. -/
def stMal : ZkState :=
  ⟨[⟨"/p", "a", RawData.malformed, 0, false⟩,
    ⟨"/p", "b", RawData.valid "k" ActionState.pending "t", 0, false⟩],
   [], [], 10⟩

theorem C4_witness :
    ((zconnGet stMal (pathJoin "/p" "a")).1 = RawData.malformed) ∧
    getActionsWorker stMal "/p" "a" = none ∧
    staleActions stMal "/p" 5 = .ok (decodedStale stMal "/p" 5) ∧
    staleWorker false 5 stMal "/p" = (stMal, 0, decodedStale stMal "/p" 5) ∧
    decodedStale stMal "/p" 5
      = [⟨"k", ActionState.pending, "t", ""⟩] :=
  ⟨by decide,
    (C4_decode_failure_isolated stMal "/p" "a" 5).1 (by decide),
    ((C4_decode_failure_isolated stMal "/p" "a" 5).2 (by decide)).2.1,
    ((C4_decode_failure_isolated stMal "/p" "a" 5).2 (by decide)).2.2.1,
    by decide⟩

theorem sortedChildNames_perm (st : ZkState) (p : String) :
    (sortedChildNames st p).Perm (st.childNames p) :=
  List.perm_insertionSort strLeP (st.childNames p)

theorem sortedChildNames_length (st : ZkState) (p : String) :
    (sortedChildNames st p).length = (st.childNames p).length :=
  (sortedChildNames_perm st p).length_eq

theorem toDeleteNames_length (st : ZkState) (p : String) (keep : Nat) :
    (toDeleteNames st p keep).length
      = (st.childNames p).length - min (st.childNames p).length keep := by
  unfold toDeleteNames
  rw [List.length_take, sortedChildNames_length]
  omega

theorem prunedChildren_names (st : ZkState) (p : String) (keep : Nat) :
    (ZkState.childNames
        { st with nodes := st.nodes.filter (pruneKeep st p keep) } p)
      = (st.childNames p).filter
          (fun nm => !((toDeleteNames st p keep).contains nm)) := by
  show (ZkState.children
      { st with nodes := st.nodes.filter (pruneKeep st p keep) } p).map
        (fun n => n.name) = _
  rw [children_prune_self st p keep]
  exact filter_on_map (fun n => n.name)
    (fun nm => !((toDeleteNames st p keep).contains nm)) (st.children p)

/-- The closed retention property the C5 theorem establishes for one path. -/
def PruneRetention (st : ZkState) (p : String) (keep : Nat) : Prop :=
  ∃ st',
    ZkTS.PruneActionLogs st p keep
      = .ok ((st.childNames p).length - min (st.childNames p).length keep, st') ∧
    (∀ name, name ∈ st'.childNames p ↔
      name ∈ (sortedChildNames st p).drop
        ((st.childNames p).length - keep)) ∧
    (st'.childNames p).length = min (st.childNames p).length keep ∧
    (∀ q, q ≠ p → st'.children q = st.children q)

/-- C5: `PruneActionLogs`, per path, lists the children, orders them
lexically (chronologically, by the ordering contract), deletes all but the
most recent `keepCount`, and the store-level call returns the per-path count
of deleted entries to its caller — the command worker, which logs it.  After
the prune, exactly `min(C, keepCount)` children remain, and the retained set
is exactly the lexically greatest `keepCount` names (the tail of the sorted
listing); other paths are untouched. -/
theorem C5_prune_retention :
    ∀ (st : ZkState) (p : String) (keep : Nat),
      storeDeleteFails st p = false →
      (st.childNames p).Nodup →
      PruneRetention st p keep := by
  intro st p keep hdf hnd
  have hsortnd : (sortedChildNames st p).Nodup :=
    ((sortedChildNames_perm st p).nodup_iff).mpr hnd
  have hsplit : (toDeleteNames st p keep)
      ++ (sortedChildNames st p).drop
        ((sortedChildNames st p).length - keep)
      = sortedChildNames st p :=
    List.take_append_drop _ _
  have hdisj : (toDeleteNames st p keep).Disjoint
      ((sortedChildNames st p).drop
        ((sortedChildNames st p).length - keep)) := by
    refine List.disjoint_of_nodup_append ?_
    rw [hsplit]
    exact hsortnd
  have hdropIdx : (sortedChildNames st p).length - keep
      = (st.childNames p).length - keep := by
    rw [sortedChildNames_length]
  refine ⟨{ st with nodes := st.nodes.filter (pruneKeep st p keep) }, ?_, ?_, ?_, ?_⟩
  · unfold ZkTS.PruneActionLogs
    rw [hdf, toDeleteNames_length]
    rfl
  · intro name
    rw [prunedChildren_names, List.mem_filter]
    constructor
    · rintro ⟨hmem, hq⟩
      have hnotdel : name ∉ toDeleteNames st p keep := by
        intro hc
        rw [Bool.not_eq_true'] at hq
        have : (toDeleteNames st p keep).contains name = true := by
          simpa using hc
        rw [this] at hq
        cases hq
      have hmem' : name ∈ sortedChildNames st p :=
        (sortedChildNames_perm st p).mem_iff.mpr hmem
      rw [← hsplit, List.mem_append] at hmem'
      rw [← hdropIdx]
      rcases hmem' with h | h
      · exact absurd h hnotdel
      · exact h
    · intro hdrop
      rw [← hdropIdx] at hdrop
      have hmem' : name ∈ sortedChildNames st p := by
        rw [← hsplit, List.mem_append]
        exact Or.inr hdrop
      have hnottake : name ∉ toDeleteNames st p keep :=
        fun ht => hdisj ht hdrop
      refine ⟨(sortedChildNames_perm st p).mem_iff.mp hmem', ?_⟩
      simpa using hnottake
  · rw [prunedChildren_names]
    have hperm := (sortedChildNames_perm st p).symm.filter
      (fun nm => !((toDeleteNames st p keep).contains nm))
    rw [hperm.length_eq]
    rw [← hsplit, List.filter_append]
    have h1 : (toDeleteNames st p keep).filter
        (fun nm => !((toDeleteNames st p keep).contains nm)) = [] := by
      rw [List.filter_eq_nil_iff]
      intro a ha
      simp [ha]
    have h2 : ((sortedChildNames st p).drop
        ((sortedChildNames st p).length - keep)).filter
          (fun nm => !((toDeleteNames st p keep).contains nm))
        = (sortedChildNames st p).drop
            ((sortedChildNames st p).length - keep) := by
      rw [List.filter_eq_self]
      intro a ha
      have : a ∉ toDeleteNames st p keep := fun ht => hdisj ht ha
      simpa using this
    rw [h1, h2, List.nil_append, List.length_drop, sortedChildNames_length]
    omega
  · intro q hq
    exact children_prune_other st p q keep hq

/-- Store state with three prunable action-log entries under one path and one
entry under another path. -/
def stLog : ZkState :=
  ⟨[⟨"/log", "0000000001", RawData.valid "k" ActionState.completed "t", 1, false⟩,
    ⟨"/log", "0000000002", RawData.valid "k" ActionState.completed "t", 2, false⟩,
    ⟨"/log", "0000000003", RawData.valid "k" ActionState.completed "t", 3, false⟩,
    ⟨"/other", "0000000009", RawData.valid "k" ActionState.completed "t", 9, false⟩],
   [], [], 100⟩

theorem C5_witness :
    (storeDeleteFails stLog "/log" = false) ∧
    (stLog.childNames "/log").Nodup ∧
    PruneRetention stLog "/log" 1 :=
  ⟨by decide, by decide, C5_prune_retention stLog "/log" 1 (by decide) (by decide)⟩

/-- Store state for the C1 refutation: path `/a` is failing, path `/b` holds
one purgeable (completed) child. -/
def stPart : ZkState :=
  ⟨[⟨"/b", "x", RawData.valid "k" ActionState.completed "t", 0, false⟩],
   ["/a"], [], 10⟩

/-- C1 counterexample: with two resolved paths of which the first fails with
a store error and the second would succeed, `commandPurgeActions` returns the
first path's raw error and the purgeable child of the succeeding path `/b` is
still present afterwards — the side effects for the succeeding path are NOT
applied and no `M`-failure aggregate is produced, refuting the claim that a
failure on one path does not stop work on the others in every batch
operation. -/
theorem C1_counterexample :
    (commandPurgeActions ⟨TopoKind.zk, fun s => Except.ok [s]⟩ stPart
        ["/a", "/b"]).1 = Outcome.err "purge failed" ∧
    storeDeleteFails stPart "/b" = false ∧
    ActionNodeCanBePurged
      (RawData.valid "k" ActionState.completed "t") = true ∧
    (⟨"/b", "x", RawData.valid "k" ActionState.completed "t", 0, false⟩ : ZNode)
      ∈ (commandPurgeActions ⟨TopoKind.zk, fun s => Except.ok [s]⟩ stPart
          ["/a", "/b"]).2.children "/b" := by
  decide

theorem commandStaleActions_components
    (f : String → Except String (List String)) (maxStaleness : Nat)
    (purge : Bool) (st : ZkState) (a : String) (l paths : List String)
    (hres : expandAll f (a :: l) = .ok paths) :
    (commandStaleActions ⟨TopoKind.zk, f⟩ maxStaleness purge st (a :: l)).state
        = (runStaleWorkers purge maxStaleness st paths).1 ∧
    (commandStaleActions ⟨TopoKind.zk, f⟩ maxStaleness purge st (a :: l)).errCount
        = (runStaleWorkers purge maxStaleness st paths).2.1 ∧
    ((commandStaleActions ⟨TopoKind.zk, f⟩ maxStaleness purge st (a :: l)).out
        = Outcome.ok "" ↔
      (runStaleWorkers purge maxStaleness st paths).2.1 = 0) := by
  have hcmd : commandStaleActions ⟨TopoKind.zk, f⟩ maxStaleness purge st (a :: l)
      = (if (runStaleWorkers purge maxStaleness st paths).2.1 > 0 then
          ⟨Outcome.err "some errors occurred, check the log",
            (runStaleWorkers purge maxStaleness st paths).1,
            (runStaleWorkers purge maxStaleness st paths).2.1,
            (runStaleWorkers purge maxStaleness st paths).2.2⟩
        else
          ⟨Outcome.ok "", (runStaleWorkers purge maxStaleness st paths).1,
            (runStaleWorkers purge maxStaleness st paths).2.1,
            (runStaleWorkers purge maxStaleness st paths).2.2⟩) := by
    show (match zkResolveWildcards ⟨TopoKind.zk, f⟩ (a :: l) with
          | .error e => (⟨Outcome.err e, st, 0, []⟩ : StaleRun)
          | .ok zkPaths =>
              if (runStaleWorkers purge maxStaleness st zkPaths).2.1 > 0 then
                ⟨Outcome.err "some errors occurred, check the log",
                  (runStaleWorkers purge maxStaleness st zkPaths).1,
                  (runStaleWorkers purge maxStaleness st zkPaths).2.1,
                  (runStaleWorkers purge maxStaleness st zkPaths).2.2⟩
              else
                ⟨Outcome.ok "", (runStaleWorkers purge maxStaleness st zkPaths).1,
                  (runStaleWorkers purge maxStaleness st zkPaths).2.1,
                  (runStaleWorkers purge maxStaleness st zkPaths).2.2⟩) = _
    rw [show zkResolveWildcards ⟨TopoKind.zk, f⟩ (a :: l) = .ok paths from hres]
  rw [hcmd]
  by_cases h : (runStaleWorkers purge maxStaleness st paths).2.1 > 0
  · rw [if_pos h]
    refine ⟨rfl, rfl, ?_, ?_⟩
    · intro hc
      cases hc
    · intro h0
      rw [h0] at h
      exact absurd h (by omega)
  · rw [if_neg h]
    exact ⟨rfl, rfl, fun _ => by omega, fun _ => rfl⟩

theorem commandPruneActionLogs_components
    (f : String → Except String (List String)) (keep : Nat) (st : ZkState)
    (a : String) (l paths : List String)
    (hres : expandAll f (a :: l) = .ok paths) :
    (commandPruneActionLogs ⟨TopoKind.zk, f⟩ keep st (a :: l)).state
        = (runPruneWorkers keep st paths).1 ∧
    (commandPruneActionLogs ⟨TopoKind.zk, f⟩ keep st (a :: l)).errCount
        = (runPruneWorkers keep st paths).2 ∧
    ((commandPruneActionLogs ⟨TopoKind.zk, f⟩ keep st (a :: l)).out
        = Outcome.ok "" ↔ (runPruneWorkers keep st paths).2 = 0) := by
  have hcmd : commandPruneActionLogs ⟨TopoKind.zk, f⟩ keep st (a :: l)
      = (if (runPruneWorkers keep st paths).2 > 0 then
          ⟨Outcome.err "some errors occurred, check the log",
            (runPruneWorkers keep st paths).1, (runPruneWorkers keep st paths).2⟩
        else
          ⟨Outcome.ok "", (runPruneWorkers keep st paths).1,
            (runPruneWorkers keep st paths).2⟩) := by
    show (match zkResolveWildcards ⟨TopoKind.zk, f⟩ (a :: l) with
          | .error e => (⟨Outcome.err e, st, 0⟩ : PruneRun)
          | .ok paths' =>
              if (runPruneWorkers keep st paths').2 > 0 then
                ⟨Outcome.err "some errors occurred, check the log",
                  (runPruneWorkers keep st paths').1,
                  (runPruneWorkers keep st paths').2⟩
              else
                ⟨Outcome.ok "", (runPruneWorkers keep st paths').1,
                  (runPruneWorkers keep st paths').2⟩) = _
    rw [show zkResolveWildcards ⟨TopoKind.zk, f⟩ (a :: l) = .ok paths from hres]
  rw [hcmd]
  by_cases h : (runPruneWorkers keep st paths).2 > 0
  · rw [if_pos h]
    refine ⟨rfl, rfl, ?_, ?_⟩
    · intro hc
      cases hc
    · intro h0
      rw [h0] at h
      exact absurd h (by omega)
  · rw [if_neg h]
    exact ⟨rfl, rfl, fun _ => by omega, fun _ => rfl⟩

theorem commandPurgeActions_resolved
    (f : String → Except String (List String)) (st : ZkState)
    (a : String) (l paths : List String)
    (hres : expandAll f (a :: l) = .ok paths) :
    commandPurgeActions ⟨TopoKind.zk, f⟩ st (a :: l) = runPurgeSeq st paths := by
  show (match zkResolveWildcards ⟨TopoKind.zk, f⟩ (a :: l) with
        | .error e => (Outcome.err e, st)
        | .ok zkActionPaths => runPurgeSeq st zkActionPaths) = _
  rw [show zkResolveWildcards ⟨TopoKind.zk, f⟩ (a :: l) = .ok paths from hres]

/-- The amended failure-isolation property: StaleActions and PruneActionLogs
aggregate exactly the failed-path count, succeed iff it is zero, and fully
apply the side effects of every non-failing path; PurgeActions succeeds iff
no path fails, and only then are all paths' purges guaranteed applied. -/
def FailureIsolationSpec (f : String → Except String (List String))
    (st : ZkState) (args paths : List String) (maxStaleness keep : Nat)
    (purge : Bool) : Prop :=
  (commandStaleActions ⟨TopoKind.zk, f⟩ maxStaleness purge st args).errCount
      = paths.countP (stalePathFails purge maxStaleness st) ∧
  ((commandStaleActions ⟨TopoKind.zk, f⟩ maxStaleness purge st args).out
      = Outcome.ok "" ↔
    paths.countP (stalePathFails purge maxStaleness st) = 0) ∧
  (∀ p ∈ paths, stalePathFails purge maxStaleness st p = false →
    (commandStaleActions ⟨TopoKind.zk, f⟩ maxStaleness purge st
        args).state.children p
      = staleEffectChildren purge maxStaleness st p) ∧
  (commandPruneActionLogs ⟨TopoKind.zk, f⟩ keep st args).errCount
      = paths.countP (storeDeleteFails st) ∧
  ((commandPruneActionLogs ⟨TopoKind.zk, f⟩ keep st args).out = Outcome.ok "" ↔
    paths.countP (storeDeleteFails st) = 0) ∧
  (∀ p ∈ paths, storeDeleteFails st p = false →
    (commandPruneActionLogs ⟨TopoKind.zk, f⟩ keep st args).state.children p
      = prunedChildren st p keep) ∧
  ((commandPurgeActions ⟨TopoKind.zk, f⟩ st args).1 = Outcome.ok "" ↔
    paths.countP (storeDeleteFails st) = 0) ∧
  (paths.countP (storeDeleteFails st) = 0 →
    ∀ p ∈ paths, (commandPurgeActions ⟨TopoKind.zk, f⟩ st args).2.children p
      = (st.children p).filter (fun n => !ActionNodeCanBePurged n.data))

/-- C1 (amended): for StaleActions and PruneActionLogs, a failure on one path
does not stop work on the others — with `M` failing paths, the call counts
exactly `M` failures, reports success iff `M = 0`, and the side effects of
every succeeding path are fully applied.  PurgeActions instead loops
sequentially and returns the first store error, so it reports success iff
zero paths fail, and only in that case are all purges applied (the
counterexample shows a succeeding path left unprocessed after a failure). -/
theorem C1_failure_isolation :
    ∀ (f : String → Except String (List String)) (st : ZkState)
      (args paths : List String) (maxStaleness keep : Nat) (purge : Bool),
      args ≠ [] → expandAll f args = .ok paths → paths.Nodup →
      FailureIsolationSpec f st args paths maxStaleness keep purge := by
  intro f st args paths maxStaleness keep purge hne hres hnd
  cases args with
  | nil => exact absurd rfl hne
  | cons a l =>
    obtain ⟨ss, se, so⟩ :=
      commandStaleActions_components f maxStaleness purge st a l paths hres
    obtain ⟨ps, pe, po⟩ :=
      commandPruneActionLogs_components f keep st a l paths hres
    have hpg := commandPurgeActions_resolved f st a l paths hres
    obtain ⟨_, _, _, _, sre, sreff⟩ :=
      runStaleWorkers_spec purge maxStaleness paths st hnd
    obtain ⟨_, _, _, _, pre, preff⟩ := runPruneWorkers_spec keep paths st hnd
    obtain ⟨go, geff⟩ := runPurgeSeq_spec paths st
    refine ⟨?_, ?_, ?_, ?_, ?_, ?_, ?_, ?_⟩
    · rw [se, sre]
    · rw [so, sre]
    · intro p hp hfail
      rw [ss]
      exact sreff p hp hfail
    · rw [pe, pre]
    · rw [po, pre]
    · intro p hp hfail
      rw [ps]
      exact preff p hp hfail
    · rw [hpg]
      exact go
    · intro h0 p hp
      rw [hpg]
      exact ((geff h0 hnd).2 p hp)

theorem C1_witness :
    (["/a", "/b"] ≠ ([] : List String)) ∧
    (expandAll (fun s => Except.ok [s]) ["/a", "/b"]
      = Except.ok ["/a", "/b"]) ∧
    (["/a", "/b"] : List String).Nodup ∧
    FailureIsolationSpec (fun s => Except.ok [s]) stPart ["/a", "/b"]
      ["/a", "/b"] 5 1 true :=
  ⟨by decide, by decide, by decide,
    C1_failure_isolation (fun s => Except.ok [s]) stPart ["/a", "/b"]
      ["/a", "/b"] 5 1 true (by decide) (by decide) (by decide)⟩

/-- C3: in the StaleActions worker with the purge flag set: when no stale
node is found for a path no purge is performed there (state unchanged, no
failure); when stale nodes are found, the follow-up purge is scoped to that
path alone — on success it deletes exactly that path's purgeable children and
touches no other path, and if the purge fails it counts exactly one failure
for that path and leaves the state unchanged, so it cannot block any other
path; the fan-out always continues with the remaining paths regardless of
this worker's outcome. -/
theorem C3_stale_purge_scoped :
    ∀ (st : ZkState) (p : String) (maxStaleness : Nat),
      (st.failing.contains p = false →
        (staleChildren st p maxStaleness).isEmpty = true →
        staleWorker true maxStaleness st p
          = (st, 0, decodedStale st p maxStaleness)) ∧
      (st.failing.contains p = false →
        (staleChildren st p maxStaleness).isEmpty = false →
        st.failingDelete.contains p = false →
        (staleWorker true maxStaleness st p).2.1 = 0 ∧
        (staleWorker true maxStaleness st p).1.children p
          = (st.children p).filter (fun n => !ActionNodeCanBePurged n.data) ∧
        (∀ q, q ≠ p →
          (staleWorker true maxStaleness st p).1.children q
            = st.children q)) ∧
      (st.failing.contains p = false →
        (staleChildren st p maxStaleness).isEmpty = false →
        st.failingDelete.contains p = true →
        staleWorker true maxStaleness st p
          = (st, 1, decodedStale st p maxStaleness)) ∧
      (∀ (purge : Bool) (rest : List String),
        (runStaleWorkers purge maxStaleness st (p :: rest)).2.1
          = (staleWorker purge maxStaleness st p).2.1
            + (runStaleWorkers purge maxStaleness
                (staleWorker purge maxStaleness st p).1 rest).2.1) := by
  intro st p maxStaleness
  refine ⟨?_, ?_, ?_, fun purge rest => rfl⟩
  · intro hf h2
    rw [staleWorker_eq_of_ok true maxStaleness st p hf, h2]
    rfl
  · intro hf h2 h3
    have hdf : storeDeleteFails st p = false := by
      unfold storeDeleteFails
      rw [hf, h3]
      rfl
    rw [staleWorker_eq_of_ok true maxStaleness st p hf, h2, hdf]
    exact ⟨rfl, children_purge_self st p,
      fun q hq => children_purge_other st p q hq⟩
  · intro hf h2 h3
    have hdf : storeDeleteFails st p = true := by
      unfold storeDeleteFails
      rw [hf, h3]
      rfl
    rw [staleWorker_eq_of_ok true maxStaleness st p hf, h2, hdf]
    rfl

/-- Store state with one stale pending action and one purgeable completed
action under `/p`, plus an untouched neighbour path `/q`. -/
def stStale : ZkState :=
  ⟨[⟨"/p", "a", RawData.valid "k" ActionState.pending "t", 0, false⟩,
    ⟨"/p", "b", RawData.valid "k" ActionState.completed "t", 0, false⟩,
    ⟨"/q", "c", RawData.valid "k" ActionState.completed "t", 0, false⟩],
   [], [], 100⟩

theorem C3_witness :
    (stStale.failing.contains "/p" = false) ∧
    ((staleChildren stStale "/p" 5).isEmpty = false) ∧
    (stStale.failingDelete.contains "/p" = false) ∧
    ((staleWorker true 5 stStale "/p").2.1 = 0 ∧
      (staleWorker true 5 stStale "/p").1.children "/p"
        = (stStale.children "/p").filter
            (fun n => !ActionNodeCanBePurged n.data) ∧
      (∀ q, q ≠ "/p" →
        (staleWorker true 5 stStale "/p").1.children q
          = stStale.children q)) :=
  ⟨by decide, by decide, by decide,
    (C3_stale_purge_scoped stStale "/p" 5).2.1 (by decide) (by decide)
      (by decide)⟩

theorem actionMapInsert_mem {m : List (String × ActionNode)} {k : String}
    {v : ActionNode} {kv : String × ActionNode}
    (h : kv ∈ actionMapInsert m k v) : kv = (k, v) ∨ kv ∈ m := by
  unfold actionMapInsert at h
  rcases List.mem_cons.mp h with h | h
  · exact Or.inl h
  · exact Or.inr (List.mem_filter.mp h).1

theorem actionMapInsert_path_inv {m : List (String × ActionNode)}
    (hm : ∀ kv ∈ m, kv.2.path = kv.1) (n : ActionNode) :
    ∀ kv ∈ actionMapInsert m n.path n, kv.2.path = kv.1 := by
  intro kv hkv
  rcases actionMapInsert_mem hkv with rfl | h
  · rfl
  · exact hm kv h

theorem actionMapInsert_keys_nodup {m : List (String × ActionNode)}
    (hm : (m.map Prod.fst).Nodup) (k : String) (v : ActionNode) :
    ((actionMapInsert m k v).map Prod.fst).Nodup := by
  unfold actionMapInsert
  rw [List.map_cons]
  refine List.Nodup.cons ?_ ?_
  · intro hk
    obtain ⟨kv, hkv, hfst⟩ := List.mem_map.mp hk
    have := (List.mem_filter.mp hkv).2
    rw [hfst] at this
    simp at this
  · exact List.Nodup.sublist
      (List.Sublist.map Prod.fst (List.filter_sublist m)) hm

theorem insertActionNodes_inv :
    ∀ (actionNodes : List ActionNode) (m : List (String × ActionNode)),
      (∀ kv ∈ m, kv.2.path = kv.1) → (m.map Prod.fst).Nodup →
      (∀ kv ∈ insertActionNodes m actionNodes, kv.2.path = kv.1) ∧
      ((insertActionNodes m actionNodes).map Prod.fst).Nodup := by
  intro actionNodes
  induction actionNodes with
  | nil => intro m h1 h2; exact ⟨h1, h2⟩
  | cons n ns ih =>
    intro m h1 h2
    exact ih (actionMapInsert m n.path n) (actionMapInsert_path_inv h1 n)
      (actionMapInsert_keys_nodup h2 n.path n)

theorem tabletActionMap_inv (st : ZkState) :
    ∀ (paths : List String),
      (∀ kv ∈ tabletActionMap st paths, kv.2.path = kv.1) ∧
      ((tabletActionMap st paths).map Prod.fst).Nodup := by
  have hgen : ∀ (paths : List String) (m : List (String × ActionNode)),
      (∀ kv ∈ m, kv.2.path = kv.1) → (m.map Prod.fst).Nodup →
      (∀ kv ∈ paths.foldl
          (fun m ap =>
            match getActions st ap with
            | .error _ => m
            | .ok actionNodes => insertActionNodes m actionNodes) m,
        kv.2.path = kv.1) ∧
      ((paths.foldl
          (fun m ap =>
            match getActions st ap with
            | .error _ => m
            | .ok actionNodes => insertActionNodes m actionNodes) m).map
        Prod.fst).Nodup := by
    intro paths
    induction paths with
    | nil => intro m h1 h2; exact ⟨h1, h2⟩
    | cons ap rest ih =>
      intro m h1 h2
      rw [List.foldl_cons]
      cases hga : getActions st ap with
      | error e => exact ih m h1 h2
      | ok actionNodes =>
        obtain ⟨h1', h2'⟩ := insertActionNodes_inv actionNodes m h1 h2
        exact ih (insertActionNodes m actionNodes) h1' h2'
  intro paths
  exact hgen paths [] (fun kv hkv => absurd hkv (List.not_mem_nil kv))
    List.nodup_nil

theorem actionMapFind_of_mem_keys (m : List (String × ActionNode))
    (hinv : ∀ kv ∈ m, kv.2.path = kv.1) (k : String)
    (hk : k ∈ m.map Prod.fst) :
    ∃ v, actionMapFind m k = some v ∧ v.path = k := by
  cases hfind : m.find? (fun kv => kv.1 == k) with
  | none =>
    exfalso
    obtain ⟨kv, hkvm, hfst⟩ := List.mem_map.mp hk
    have := List.find?_eq_none.mp hfind kv hkvm
    rw [hfst] at this
    simp at this
  | some kv' =>
    have hp := List.find?_some hfind
    have hmem := List.mem_of_find?_eq_some hfind
    have hk' : kv'.1 = k := eq_of_beq hp
    refine ⟨kv'.2, ?_, by rw [hinv kv' hmem, hk']⟩
    unfold actionMapFind
    rw [hfind]
    rfl

theorem filterMap_find_paths (m : List (String × ActionNode))
    (hinv : ∀ kv ∈ m, kv.2.path = kv.1) :
    ∀ keys : List String, (∀ k ∈ keys, k ∈ m.map Prod.fst) →
      ((keys.filterMap (actionMapFind m)).map (fun a => a.path)) = keys := by
  intro keys
  induction keys with
  | nil => intro _; rfl
  | cons k ks ih =>
    intro hks
    obtain ⟨v, hfind, hpath⟩ :=
      actionMapFind_of_mem_keys m hinv k (hks k (List.mem_cons_self k ks))
    rw [List.filterMap_cons, hfind, List.map_cons, hpath,
      ih (fun k' hk' => hks k' (List.mem_cons_of_mem k hk'))]

/-- Store state refuting C2: the shard-level child path `/z/b` sorts after
the tablet child path `/a/x`. -/
def stShard : ZkState :=
  ⟨[⟨"/z", "b", RawData.valid "k" ActionState.pending "t", 0, false⟩,
    ⟨"/a", "x", RawData.valid "k" ActionState.pending "t", 0, false⟩],
   [], [], 10⟩

/-- C2 counterexample: `listActionsByShard` emits the shard-level node
`/z/b` before the replica node `/a/x`, so the final listing is not sorted by
path and the shard-level nodes are not merged into the path-keyed
collection — refuting the claim that shard-level and replica nodes are merged
into one collection and emitted sorted by path. -/
theorem C2_counterexample :
    listActionsByShard stShard ⟨"/z", ["/a"]⟩
      = .ok [⟨"k", ActionState.pending, "t", "/z/b"⟩,
             ⟨"k", ActionState.pending, "t", "/a/x"⟩] ∧
    strLe "/z/b" "/a/x" = false := by
  decide

/-- The amended output shape of `listActionsByShard`: the shard fetch's nodes
first, then the replicas' nodes merged into a path-keyed map and emitted
sorted by path (each emitted replica node being the map's entry at its own
path). -/
def ListShardOutputSpec (st : ZkState) (topo : ShardTopo) : Prop :=
  ∃ shardPart tabletPart,
    listActionsByShard st topo = .ok (shardPart ++ tabletPart) ∧
    getActions st topo.shardActionPath = .ok shardPart ∧
    List.Sorted strLeP (tabletPart.map (fun a => a.path)) ∧
    (tabletPart.map (fun a => a.path)).Nodup ∧
    (∀ a ∈ tabletPart,
      actionMapFind (tabletActionMap st topo.tabletActionPaths) a.path
        = some a)

/-- C2 (amended): when the shard-level fetch succeeds, `listActionsByShard`
emits the shard-level nodes first, as fetched, and then merges only the
replicas' action nodes into one path-keyed collection, emitting those sorted
by path with no duplicate path; the whole listing is a pure function of the
store state, so repeated invocations over the same state are identical (in
this sequential embedding), but it is not globally sorted and the shard-level
nodes bypass the merge. -/
theorem C2_listShardActions_output :
    ∀ (st : ZkState) (topo : ShardTopo),
      st.failing.contains topo.shardActionPath = false →
      ListShardOutputSpec st topo := by
  intro st topo hf
  obtain ⟨hinv, hnd⟩ := tabletActionMap_inv st topo.tabletActionPaths
  have hga : getActions st topo.shardActionPath
      = .ok ((List.insertionSort strLeP
            (st.childNames topo.shardActionPath)).filterMap
          (getActionsWorker st topo.shardActionPath)) := by
    unfold getActions zconnChildren
    rw [hf]
    rfl
  have hkmem : ∀ k ∈ List.insertionSort strLeP
      ((tabletActionMap st topo.tabletActionPaths).map Prod.fst),
      k ∈ (tabletActionMap st topo.tabletActionPaths).map Prod.fst :=
    fun k hk => (List.perm_insertionSort strLeP _).mem_iff.mp hk
  have hkeys : ((List.insertionSort strLeP
        ((tabletActionMap st topo.tabletActionPaths).map Prod.fst)).filterMap
          (actionMapFind (tabletActionMap st topo.tabletActionPaths))).map
        (fun a => a.path)
      = List.insertionSort strLeP
          ((tabletActionMap st topo.tabletActionPaths).map Prod.fst) :=
    filterMap_find_paths (tabletActionMap st topo.tabletActionPaths) hinv _
      hkmem
  refine ⟨(List.insertionSort strLeP
        (st.childNames topo.shardActionPath)).filterMap
      (getActionsWorker st topo.shardActionPath),
    (List.insertionSort strLeP
        ((tabletActionMap st topo.tabletActionPaths).map Prod.fst)).filterMap
      (actionMapFind (tabletActionMap st topo.tabletActionPaths)),
    ?_, hga, ?_, ?_, ?_⟩
  · unfold listActionsByShard
    rw [hga]
  · rw [hkeys]
    exact List.sorted_insertionSort strLeP _
  · rw [hkeys]
    exact ((List.perm_insertionSort strLeP _).nodup_iff).mpr hnd
  · intro a ha
    obtain ⟨k, hk, hfind⟩ := List.mem_filterMap.mp ha
    obtain ⟨v, hfind', hpath⟩ :=
      actionMapFind_of_mem_keys (tabletActionMap st topo.tabletActionPaths)
        hinv k (hkmem k hk)
    have hav : a = v := Option.some.inj (hfind ▸ hfind')
    rw [show a.path = k from by rw [hav, hpath]]
    exact hfind

/-- Store state for the C2 witness: one shard-level node and three replica
paths each holding one action node. -/
def stShardW : ZkState :=
  ⟨[⟨"/s", "a", RawData.valid "k" ActionState.pending "t", 0, false⟩,
    ⟨"/t1", "b", RawData.valid "k" ActionState.pending "t", 0, false⟩,
    ⟨"/t2", "c", RawData.valid "k" ActionState.pending "t", 0, false⟩,
    ⟨"/t3", "d", RawData.valid "k" ActionState.pending "t", 0, false⟩],
   [], [], 10⟩

theorem C2_witness :
    (stShardW.failing.contains "/s" = false) ∧
    ListShardOutputSpec stShardW ⟨"/s", ["/t1", "/t2", "/t3"]⟩ :=
  ⟨by decide,
    C2_listShardActions_output stShardW ⟨"/s", ["/t1", "/t2", "/t3"]⟩
      (by decide)⟩
